import Mathlib

/-!
Verification of the Count-Min Sketch pipeline of the leaderboard repository.

The Python sources are shallowly embedded:
* `src/common/count_min_sketch.py` — `CountMinSketch` with `add`, `estimate`,
  `merge` (mutating methods become functions returning the new state).
* `src/processors/realtime_processor.py` — `load_sketch` and the event loop of
  `process_events`.
* `src/processors/batch_processor.py` — the event loop of `process_batch` and
  its output-file naming.
* `src/leaderboard_service/service.py` — the sketch-loading step of
  `get_approximate_top_k`.

Machine integers are modelled as `Nat` (Python integers are unbounded and all
counters stay non-negative: counts added are natural numbers).  The SHA-256
row hash `int(hashlib.sha256(str(i).encode() + item.encode()).hexdigest(), 16)`
is a deterministic function of the row salt `i` and the item supplied by the
Python standard library, external to this repository; it is modelled as an
arbitrary function `hashFn : Nat → String → Nat`, and every theorem is proved
for all such functions.  Determinism (the property the spec relies on) is
automatic because `hashFn` is a function.
-/

namespace Leaderboard

/-- The 2-D list of counters (`self.sketch` in the Python class). -/
abbrev Grid := List (List Nat)

/-- Embeds the `CountMinSketch` class of `src/common/count_min_sketch.py`:
fields `width`, `depth` and the counter grid `sketch`. -/
structure CountMinSketch where
  width : Nat
  depth : Nat
  sketch : Grid
deriving Repr, DecidableEq

/-- The column addressed by row `i` for `item`:
`int(sha256(str(i) + item).hexdigest(), 16) % width`, with the SHA-256 value
abstracted as `hashFn i item`. -/
def rowIndex (hashFn : Nat → String → Nat) (width : Nat) (i : Nat) (item : String) : Nat :=
  hashFn i item % width

/-- `CountMinSketch._get_hashes`: the list of per-row columns for `item`. -/
def getHashes (hashFn : Nat → String → Nat) (c : CountMinSketch) (item : String) : List Nat :=
  (List.range c.depth).map (fun i => rowIndex hashFn c.width i item)

/-- `CountMinSketch.__init__`: a `depth × width` grid of zeros
(`[[0] * width for _ in range(depth)]`). -/
def initSketch (width depth : Nat) : CountMinSketch :=
  ⟨width, depth, List.replicate depth (List.replicate width 0)⟩

/-- One Python statement `row[j] += count` (`row` is `self.sketch[i]`). -/
def bumpRow (row : List Nat) (j : Nat) (cnt : Nat) : List Nat :=
  row.set j (row.getD j 0 + cnt)

/-- The loop of `CountMinSketch.add`: walk the rows, incrementing cell
`pos i` of row `i` by `cnt` (`i` is the absolute row index). -/
def bumpRows (pos : Nat → Nat) (cnt : Nat) : Nat → Grid → Grid
  | _, [] => []
  | i, r :: rs => bumpRow r (pos i) cnt :: bumpRows pos cnt (i + 1) rs

/-- `CountMinSketch.add(item, count)`: increments
`self.sketch[i][hashes[i]]` by `count` for every row `i`. -/
def add (hashFn : Nat → String → Nat) (c : CountMinSketch) (item : String) (cnt : Nat) :
    CountMinSketch :=
  { c with sketch := bumpRows (fun i => rowIndex hashFn c.width i item) cnt 0 c.sketch }

/-- Reads counter cell `(i, j)` (`self.sketch[i][j]`); out-of-range reads,
which never occur on well-formed sketches, default to `0`. -/
def cellVal (c : CountMinSketch) (i j : Nat) : Nat :=
  (c.sketch.getD i []).getD j 0

/-- One Python statement `min_count = min(min_count, v)`, where
`none` models the initial `float("inf")`. -/
def minOpt (m : Option Nat) (v : Nat) : Option Nat :=
  match m with
  | none => some v
  | some x => some (min x v)

/-- `CountMinSketch.estimate(item)`: fold `min` over the `depth` addressed
counters starting from `float("inf")` (`none`; with `depth > 0` the result is
always `some`). -/
def estimate (hashFn : Nat → String → Nat) (c : CountMinSketch) (item : String) : Option Nat :=
  (List.range c.depth).foldl (fun m i => minOpt m (cellVal c i (rowIndex hashFn c.width i item)))
    none

/-- `CountMinSketch.merge(other_sketch)`: returns the final state of `self`
together with `some errorMessage` when the `ValueError` is raised.  The raise
happens before any cell is touched, so on failure the state is returned
untouched. -/
def mergeRun (c other : CountMinSketch) : CountMinSketch × Option String :=
  if c.width ≠ other.width ∨ c.depth ≠ other.depth then
    (c, some "Sketches must have the same dimensions to be merged.")
  else
    ({ c with sketch := c.sketch.zipWith (fun r1 r2 => r1.zipWith (· + ·) r2) other.sketch },
      none)

/-- A sequence of `add` calls applied left to right. -/
def applyOps (hashFn : Nat → String → Nat) (c : CountMinSketch) :
    List (String × Nat) → CountMinSketch
  | [] => c
  | (k, cnt) :: rest => applyOps hashFn (add hashFn c k cnt) rest

/-- The grid really is `depth` rows of `width` cells — true of every sketch
the Python constructor builds and preserved by `add` and successful `merge`. -/
def WellFormed (c : CountMinSketch) : Prop :=
  c.sketch.length = c.depth ∧ ∀ row ∈ c.sketch, row.length = c.width

/-- Sum of the counts of the ops whose key is `k` (the exact count of `k`). -/
def keyTotal (k : String) : List (String × Nat) → Nat
  | [] => 0
  | (k2, cnt) :: rest => (if k2 = k then cnt else 0) + keyTotal k rest

/-- Sum of all counts added. -/
def totalCount : List (String × Nat) → Nat
  | [] => 0
  | (_, cnt) :: rest => cnt + totalCount rest

/-- Sum of the counters of row `i`. -/
def rowSum (c : CountMinSketch) (i : Nat) : Nat :=
  (c.sketch.getD i []).sum

/-- Total increment that a sequence of ops contributes to cell `(i, j)` of a
width-`w` sketch. -/
def opsDelta (hashFn : Nat → String → Nat) (w : Nat) (i j : Nat) :
    List (String × Nat) → Nat
  | [] => 0
  | (k, cnt) :: rest =>
      (if rowIndex hashFn w i k = j then cnt else 0) + opsDelta hashFn w i j rest

/-! ### List helper lemmas -/

lemma getD_set_self : ∀ (l : List Nat) (p v : Nat), p < l.length → (l.set p v).getD p 0 = v
  | [], _, _, h => by simp at h
  | _ :: _, 0, _, _ => rfl
  | _ :: t, p + 1, v, h => by
      simpa using getD_set_self t p v (by simpa using h)

lemma getD_set_ne : ∀ (l : List Nat) (p q v : Nat), p ≠ q → (l.set p v).getD q 0 = l.getD q 0
  | [], _, _, _, _ => by simp
  | _ :: _, 0, 0, _, h => absurd rfl h
  | _ :: _, 0, _ + 1, _, _ => by simp
  | _ :: _, _ + 1, 0, _, _ => by simp
  | _ :: t, p + 1, q + 1, v, h => by
      simpa using getD_set_ne t p q v (fun e => h (by rw [e]))

lemma sum_set_add : ∀ (l : List Nat) (p cnt : Nat), p < l.length →
    (l.set p (l.getD p 0 + cnt)).sum = l.sum + cnt
  | [], _, _, h => by simp at h
  | a :: t, 0, cnt, _ => by simp [List.sum_cons]; omega
  | a :: t, p + 1, cnt, h => by
      have ih := sum_set_add t p cnt (by simpa using h)
      show (a :: t.set p ((a :: t).getD (p + 1) 0 + cnt)).sum = (a :: t).sum + cnt
      rw [List.getD_cons_succ, List.sum_cons, List.sum_cons, ih]
      omega

lemma getD_replicate_zero : ∀ (w j : Nat), (List.replicate w (0 : Nat)).getD j 0 = 0
  | 0, _ => by simp
  | _ + 1, 0 => rfl
  | w + 1, j + 1 => by
      rw [List.replicate_succ, List.getD_cons_succ]
      exact getD_replicate_zero w j

lemma getD_replicate_row : ∀ (d : Nat) (r : List Nat) (i : Nat),
    (List.replicate d r).getD i [] = if i < d then r else []
  | 0, _, i => by simp
  | _ + 1, _, 0 => by simp
  | d + 1, r, i + 1 => by
      rw [List.replicate_succ, List.getD_cons_succ, getD_replicate_row d r i]
      simp [Nat.succ_lt_succ_iff]

/-! ### Basic sketch lemmas -/

lemma rowIndex_lt (hashFn : Nat → String → Nat) (w i : Nat) (item : String) (hw : 0 < w) :
    rowIndex hashFn w i item < w :=
  Nat.mod_lt _ hw

lemma cellVal_init (w d i j : Nat) : cellVal (initSketch w d) i j = 0 := by
  unfold cellVal initSketch
  simp only [getD_replicate_row]
  split
  · exact getD_replicate_zero w j
  · simp

lemma add_width (hashFn : Nat → String → Nat) (c : CountMinSketch) (item : String) (cnt : Nat) :
    (add hashFn c item cnt).width = c.width := rfl

lemma add_depth (hashFn : Nat → String → Nat) (c : CountMinSketch) (item : String) (cnt : Nat) :
    (add hashFn c item cnt).depth = c.depth := rfl

lemma bumpRow_length (row : List Nat) (j cnt : Nat) : (bumpRow row j cnt).length = row.length := by
  simp [bumpRow]

lemma bumpRows_length (pos : Nat → Nat) (cnt : Nat) :
    ∀ (i : Nat) (g : Grid), (bumpRows pos cnt i g).length = g.length
  | _, [] => rfl
  | i, _ :: rs => by
      simp [bumpRows, bumpRow_length, bumpRows_length pos cnt (i + 1) rs]

lemma bumpRows_getD (pos : Nat → Nat) (cnt : Nat) :
    ∀ (g : Grid) (i0 k : Nat),
      (bumpRows pos cnt i0 g).getD k [] =
        if k < g.length then bumpRow (g.getD k []) (pos (i0 + k)) cnt else []
  | [], _, k => by simp [bumpRows]
  | r :: rs, i0, 0 => by simp [bumpRows]
  | r :: rs, i0, k + 1 => by
      have ih := bumpRows_getD pos cnt rs (i0 + 1) k
      have harg : i0 + 1 + k = i0 + (k + 1) := by omega
      rw [harg] at ih
      simp only [bumpRows, List.getD_cons_succ, ih, List.length_cons, Nat.succ_lt_succ_iff]

lemma wf_init (w d : Nat) : WellFormed (initSketch w d) := by
  constructor
  · simp [initSketch]
  · intro row hrow
    have := List.eq_of_mem_replicate hrow
    simp [this, initSketch]

lemma row_length_of_wf {c : CountMinSketch} (hwf : WellFormed c) {i : Nat} (hi : i < c.depth) :
    (c.sketch.getD i []).length = c.width := by
  have hlen : i < c.sketch.length := by rw [hwf.1]; exact hi
  have : c.sketch.getD i [] = c.sketch[i] := List.getD_eq_getElem c.sketch [] hlen
  rw [this]
  exact hwf.2 _ (List.getElem_mem hlen)

lemma wf_add (hashFn : Nat → String → Nat) {c : CountMinSketch} (item : String) (cnt : Nat)
    (hwf : WellFormed c) : WellFormed (add hashFn c item cnt) := by
  constructor
  · simpa [add, bumpRows_length] using hwf.1
  · intro row hrow
    simp only [add] at hrow
    -- every row of the bumped grid is a bump of a row of the original grid
    have key : ∀ (g : Grid) (i0 : Nat) (r : List Nat),
        r ∈ bumpRows (fun i => rowIndex hashFn c.width i item) cnt i0 g →
        ∃ r0 ∈ g, ∃ j, r = bumpRow r0 j cnt := by
      intro g
      induction g with
      | nil => intro i0 r h; simp [bumpRows] at h
      | cons hd tl ih =>
          intro i0 r h
          simp only [bumpRows, List.mem_cons] at h
          rcases h with h | h
          · exact ⟨hd, List.mem_cons_self _ _, _, h⟩
          · obtain ⟨r0, hr0, j, hj⟩ := ih (i0 + 1) r h
            exact ⟨r0, List.mem_cons_of_mem _ hr0, j, hj⟩
    obtain ⟨r0, hr0, j, hj⟩ := key c.sketch 0 row hrow
    have hlen0 : r0.length = c.width := hwf.2 _ hr0
    simp [hj, bumpRow_length, hlen0, add]

lemma cellVal_add (hashFn : Nat → String → Nat) {c : CountMinSketch} (item : String)
    (cnt : Nat) {i j : Nat} (hwf : WellFormed c) (hi : i < c.depth) (hj : j < c.width) :
    cellVal (add hashFn c item cnt) i j =
      cellVal c i j + (if j = rowIndex hashFn c.width i item then cnt else 0) := by
  have hilen : i < c.sketch.length := by rw [hwf.1]; exact hi
  have hrow := bumpRows_getD (fun i => rowIndex hashFn c.width i item) cnt c.sketch 0 i
  rw [if_pos hilen] at hrow
  simp only [Nat.zero_add] at hrow
  unfold cellVal add
  simp only [hrow, bumpRow]
  by_cases hcase : j = rowIndex hashFn c.width i item
  · subst hcase
    rw [if_pos rfl]
    apply getD_set_self
    rw [row_length_of_wf hwf hi]
    exact hj
  · rw [if_neg hcase, Nat.add_zero]
    exact getD_set_ne _ _ _ _ (fun e => hcase e.symm)

/-! ### Sequences of adds -/

lemma applyOps_width (hashFn : Nat → String → Nat) :
    ∀ (ops : List (String × Nat)) (c : CountMinSketch),
      (applyOps hashFn c ops).width = c.width
  | [], _ => rfl
  | (_, _) :: rest, _ => applyOps_width hashFn rest _

lemma applyOps_depth (hashFn : Nat → String → Nat) :
    ∀ (ops : List (String × Nat)) (c : CountMinSketch),
      (applyOps hashFn c ops).depth = c.depth
  | [], _ => rfl
  | (_, _) :: rest, _ => applyOps_depth hashFn rest _

lemma wf_applyOps (hashFn : Nat → String → Nat) :
    ∀ (ops : List (String × Nat)) (c : CountMinSketch),
      WellFormed c → WellFormed (applyOps hashFn c ops)
  | [], _, hwf => hwf
  | (k, cnt) :: rest, c, hwf =>
      wf_applyOps hashFn rest _ (wf_add hashFn k cnt hwf)

lemma cellVal_applyOps (hashFn : Nat → String → Nat) :
    ∀ (ops : List (String × Nat)) (c : CountMinSketch), WellFormed c →
      ∀ {i j : Nat}, i < c.depth → j < c.width →
      cellVal (applyOps hashFn c ops) i j = cellVal c i j + opsDelta hashFn c.width i j ops
  | [], c, _, _, _, _, _ => by simp [applyOps, opsDelta]
  | (k, cnt) :: rest, c, hwf, i, j, hi, hj => by
      have hwf2 : WellFormed (add hashFn c k cnt) := wf_add hashFn k cnt hwf
      have ih := cellVal_applyOps hashFn rest (add hashFn c k cnt) hwf2
        (i := i) (j := j) hi hj
      rw [applyOps, ih, cellVal_add hashFn k cnt hwf hi hj]
      show _ = cellVal c i j +
        ((if rowIndex hashFn c.width i k = j then cnt else 0) +
          opsDelta hashFn c.width i j rest)
      have : (if j = rowIndex hashFn c.width i k then cnt else 0) =
          (if rowIndex hashFn c.width i k = j then cnt else 0) := by
        by_cases h : j = rowIndex hashFn c.width i k
        · rw [if_pos h, if_pos h.symm]
        · rw [if_neg h, if_neg (fun e => h e.symm)]
      rw [add_width, this, Nat.add_assoc]

lemma keyTotal_le_opsDelta (hashFn : Nat → String → Nat) (w i : Nat) (k : String) :
    ∀ ops : List (String × Nat),
      keyTotal k ops ≤ opsDelta hashFn w i (rowIndex hashFn w i k) ops
  | [] => Nat.le_refl 0
  | (k2, cnt) :: rest => by
      have ih := keyTotal_le_opsDelta hashFn w i k rest
      rw [keyTotal, opsDelta]
      apply Nat.add_le_add _ ih
      by_cases h : k2 = k
      · subst h
        simp
      · rw [if_neg h]
        exact Nat.zero_le _

/-! ### The min-fold of `estimate` -/

lemma foldl_minOpt_some : ∀ (l : List Nat) (a : Nat),
    ∃ m, l.foldl minOpt (some a) = some m ∧ m ≤ a ∧ (∀ x ∈ l, m ≤ x) ∧ (m = a ∨ m ∈ l)
  | [], a => ⟨a, rfl, Nat.le_refl a, by simp, Or.inl rfl⟩
  | b :: t, a => by
      obtain ⟨m, hfold, hle, hall, hmem⟩ := foldl_minOpt_some t (min a b)
      refine ⟨m, hfold, Nat.le_trans hle (Nat.min_le_left a b), ?_, ?_⟩
      · intro x hx
        rcases List.mem_cons.mp hx with h | h
        · exact h ▸ Nat.le_trans hle (Nat.min_le_right a b)
        · exact hall x h
      · rcases hmem with h | h
        · rcases le_total a b with hab | hab
          · exact Or.inl (h.trans (Nat.min_eq_left hab))
          · exact Or.inr (List.mem_cons.mpr (Or.inl (h.trans (Nat.min_eq_right hab))))
        · exact Or.inr (List.mem_cons_of_mem b h)

lemma foldl_minOpt_none (l : List Nat) (h : l ≠ []) :
    ∃ m, l.foldl minOpt none = some m ∧ (∀ x ∈ l, m ≤ x) ∧ m ∈ l := by
  match l, h with
  | a :: t, _ =>
      obtain ⟨m, hfold, hle, hall, hmem⟩ := foldl_minOpt_some t a
      refine ⟨m, hfold, ?_, ?_⟩
      · intro x hx
        rcases List.mem_cons.mp hx with hx | hx
        · exact hx ▸ hle
        · exact hall x hx
      · rcases hmem with hm | hm
        · exact hm ▸ List.mem_cons_self a t
        · exact List.mem_cons_of_mem a hm

/-- Characterization of `estimate` on a sketch of positive depth: it returns
`some m` where `m` is a lower bound of the `depth` addressed counters and is
attained at one of them. -/
lemma estimate_spec (hashFn : Nat → String → Nat) (c : CountMinSketch) (item : String)
    (hd : 0 < c.depth) :
    ∃ m, estimate hashFn c item = some m ∧
      (∀ i < c.depth, m ≤ cellVal c i (rowIndex hashFn c.width i item)) ∧
      (∃ i < c.depth, m = cellVal c i (rowIndex hashFn c.width i item)) := by
  have hmap : estimate hashFn c item =
      ((List.range c.depth).map
        (fun i => cellVal c i (rowIndex hashFn c.width i item))).foldl minOpt none := by
    rw [estimate, List.foldl_map]
  have hne : (List.range c.depth).map
      (fun i => cellVal c i (rowIndex hashFn c.width i item)) ≠ [] := by
    simp [List.range_eq_nil]
    omega
  obtain ⟨m, hfold, hall, hmem⟩ := foldl_minOpt_none _ hne
  refine ⟨m, hmap.trans hfold, ?_, ?_⟩
  · intro i hi
    exact hall _ (List.mem_map_of_mem _ (List.mem_range.mpr hi))
  · obtain ⟨i, hi, hval⟩ := List.mem_map.mp hmem
    exact ⟨i, List.mem_range.mp hi, hval.symm⟩

/-- Core no-undercount bound: after any sequence of adds on a well-formed
sketch, the estimate of any key is at least the total count the sequence
added for that key. -/
lemma estimate_applyOps_ge (hashFn : Nat → String → Nat) (c : CountMinSketch)
    (ops : List (String × Nat)) (k : String) (hwf : WellFormed c)
    (hw : 0 < c.width) (hd : 0 < c.depth) :
    ∃ m, estimate hashFn (applyOps hashFn c ops) k = some m ∧ keyTotal k ops ≤ m := by
  have hwf2 := wf_applyOps hashFn ops c hwf
  have hdepth : (applyOps hashFn c ops).depth = c.depth := applyOps_depth hashFn ops c
  have hwidth : (applyOps hashFn c ops).width = c.width := applyOps_width hashFn ops c
  obtain ⟨m, hest, hall, i0, hi0, hval⟩ :=
    estimate_spec hashFn (applyOps hashFn c ops) k (by rw [hdepth]; exact hd)
  refine ⟨m, hest, ?_⟩
  rw [hval, hwidth]
  have hcell := cellVal_applyOps hashFn ops c hwf
    (i := i0) (j := rowIndex hashFn c.width i0 k)
    (by rw [hdepth] at hi0; exact hi0) (rowIndex_lt hashFn c.width i0 k hw)
  rw [hcell]
  exact Nat.le_trans (keyTotal_le_opsDelta hashFn c.width i0 k ops) (Nat.le_add_left _ _)

/-! ### Row sums -/

lemma rowSum_add (hashFn : Nat → String → Nat) {c : CountMinSketch} (item : String)
    (cnt : Nat) (hwf : WellFormed c) (hw : 0 < c.width) {i : Nat} (hi : i < c.depth) :
    rowSum (add hashFn c item cnt) i = rowSum c i + cnt := by
  have hilen : i < c.sketch.length := by rw [hwf.1]; exact hi
  have hrow := bumpRows_getD (fun i => rowIndex hashFn c.width i item) cnt c.sketch 0 i
  rw [if_pos hilen] at hrow
  simp only [Nat.zero_add] at hrow
  unfold rowSum add
  simp only [hrow, bumpRow]
  apply sum_set_add
  rw [row_length_of_wf hwf hi]
  exact rowIndex_lt hashFn c.width i item hw

lemma rowSum_applyOps (hashFn : Nat → String → Nat) :
    ∀ (ops : List (String × Nat)) (c : CountMinSketch), WellFormed c → 0 < c.width →
      ∀ {i : Nat}, i < c.depth →
      rowSum (applyOps hashFn c ops) i = rowSum c i + totalCount ops
  | [], c, _, _, _, _ => by simp [applyOps, totalCount]
  | (k, cnt) :: rest, c, hwf, hw, i, hi => by
      have ih := rowSum_applyOps hashFn rest (add hashFn c k cnt)
        (wf_add hashFn k cnt hwf) hw (i := i) hi
      rw [applyOps, ih, rowSum_add hashFn k cnt hwf hw hi, totalCount]
      omega

lemma rowSum_init (w d i : Nat) : rowSum (initSketch w d) i = 0 := by
  unfold rowSum initSketch
  rw [getD_replicate_row]
  split
  · simp
  · simp

/-! ### Merge -/

lemma zipWith_row_getD : ∀ (r1 r2 : List Nat) (j : Nat), j < r1.length → j < r2.length →
    (r1.zipWith (· + ·) r2).getD j 0 = r1.getD j 0 + r2.getD j 0
  | [], _, _, h, _ => by simp at h
  | _ :: _, [], _, _, h => by simp at h
  | a :: _, b :: _, 0, _, _ => rfl
  | a :: t1, b :: t2, j + 1, h1, h2 => by
      simpa using zipWith_row_getD t1 t2 j (by simpa using h1) (by simpa using h2)

lemma zipWith_grid_getD : ∀ (g1 g2 : Grid) (i : Nat), i < g1.length → i < g2.length →
    (g1.zipWith (fun r1 r2 => r1.zipWith (· + ·) r2) g2).getD i [] =
      (g1.getD i []).zipWith (· + ·) (g2.getD i [])
  | [], _, _, h, _ => by simp at h
  | _ :: _, [], _, _, h => by simp at h
  | r1 :: _, r2 :: _, 0, _, _ => rfl
  | r1 :: t1, r2 :: t2, i + 1, h1, h2 => by
      simpa using zipWith_grid_getD t1 t2 i (by simpa using h1) (by simpa using h2)

lemma zipWith_rows_length : ∀ (g1 g2 : Grid) (w : Nat),
    (∀ r ∈ g1, r.length = w) → (∀ r ∈ g2, r.length = w) →
    ∀ r ∈ g1.zipWith (fun r1 r2 => r1.zipWith (· + ·) r2) g2, r.length = w
  | [], _, _, _, _ => by simp
  | _ :: _, [], _, _, _ => by simp
  | r1 :: t1, r2 :: t2, w, h1, h2 => by
      intro r hr
      simp only [List.zipWith_cons_cons, List.mem_cons] at hr
      rcases hr with h | h
      · rw [h, List.length_zipWith, h1 r1 (List.mem_cons_self _ _),
          h2 r2 (List.mem_cons_self _ _), Nat.min_self]
      · exact zipWith_rows_length t1 t2 w (fun r h => h1 r (List.mem_cons_of_mem _ h))
          (fun r h => h2 r (List.mem_cons_of_mem _ h)) r h

lemma row_ext (r1 r2 : List Nat) (hlen : r1.length = r2.length)
    (h : ∀ j < r1.length, r1.getD j 0 = r2.getD j 0) : r1 = r2 := by
  apply List.ext_getElem hlen
  intro j h1 h2
  have := h j h1
  rwa [List.getD_eq_getElem r1 0 h1, List.getD_eq_getElem r2 0 h2] at this

lemma grid_ext (g1 g2 : Grid) (hlen : g1.length = g2.length)
    (h : ∀ i < g1.length, g1.getD i [] = g2.getD i []) : g1 = g2 := by
  apply List.ext_getElem hlen
  intro i h1 h2
  have := h i h1
  rwa [List.getD_eq_getElem g1 [] h1, List.getD_eq_getElem g2 [] h2] at this

lemma opsDelta_append (hashFn : Nat → String → Nat) (w i j : Nat) :
    ∀ A B : List (String × Nat),
      opsDelta hashFn w i j (A ++ B) = opsDelta hashFn w i j A + opsDelta hashFn w i j B
  | [], B => by simp [opsDelta]
  | (k, cnt) :: rest, B => by
      rw [List.cons_append, opsDelta, opsDelta, opsDelta_append hashFn w i j rest B,
        Nat.add_assoc]

/-- Merging the sketches of two add sequences (over the same dimensions and
hash family) yields exactly the sketch of the concatenated sequence. -/
lemma mergeRun_applyOps (hashFn : Nat → String → Nat) (w d : Nat)
    (A B : List (String × Nat)) :
    (mergeRun (applyOps hashFn (initSketch w d) A) (applyOps hashFn (initSketch w d) B)).1
      = applyOps hashFn (initSketch w d) (A ++ B) := by
  set sA := applyOps hashFn (initSketch w d) A with hsA
  set sB := applyOps hashFn (initSketch w d) B with hsB
  set sU := applyOps hashFn (initSketch w d) (A ++ B) with hsU
  have hwfI : WellFormed (initSketch w d) := wf_init w d
  have hwfA : WellFormed sA := wf_applyOps hashFn A _ hwfI
  have hwfB : WellFormed sB := wf_applyOps hashFn B _ hwfI
  have hwfU : WellFormed sU := wf_applyOps hashFn (A ++ B) _ hwfI
  have hwA : sA.width = w := applyOps_width hashFn A _
  have hwB : sB.width = w := applyOps_width hashFn B _
  have hwU : sU.width = w := applyOps_width hashFn (A ++ B) _
  have hdA : sA.depth = d := applyOps_depth hashFn A _
  have hdB : sB.depth = d := applyOps_depth hashFn B _
  have hdU : sU.depth = d := applyOps_depth hashFn (A ++ B) _
  have hcond : ¬(sA.width ≠ sB.width ∨ sA.depth ≠ sB.depth) := by
    rw [hwA, hwB, hdA, hdB]
    simp
  rw [mergeRun, if_neg hcond]
  have hlenA : sA.sketch.length = d := by rw [hwfA.1, hdA]
  have hlenB : sB.sketch.length = d := by rw [hwfB.1, hdB]
  have hlenU : sU.sketch.length = d := by rw [hwfU.1, hdU]
  have hcellA : ∀ i < d, ∀ j < w, cellVal sA i j = opsDelta hashFn w i j A := by
    intro i hi j hj
    rw [hsA, cellVal_applyOps hashFn A _ hwfI (by simpa [initSketch] using hi)
      (by simpa [initSketch] using hj), cellVal_init]
    simp [initSketch]
  have hcellB : ∀ i < d, ∀ j < w, cellVal sB i j = opsDelta hashFn w i j B := by
    intro i hi j hj
    rw [hsB, cellVal_applyOps hashFn B _ hwfI (by simpa [initSketch] using hi)
      (by simpa [initSketch] using hj), cellVal_init]
    simp [initSketch]
  have hcellU : ∀ i < d, ∀ j < w, cellVal sU i j = opsDelta hashFn w i j (A ++ B) := by
    intro i hi j hj
    rw [hsU, cellVal_applyOps hashFn (A ++ B) _ hwfI (by simpa [initSketch] using hi)
      (by simpa [initSketch] using hj), cellVal_init]
    simp [initSketch]
  -- the merged structure agrees with sU in every field
  have hgrid : sA.sketch.zipWith (fun r1 r2 => r1.zipWith (· + ·) r2) sB.sketch
      = sU.sketch := by
    apply grid_ext
    · rw [List.length_zipWith, hlenA, hlenB, Nat.min_self, hlenU]
    · intro i hi
      have hid : i < d := by rwa [List.length_zipWith, hlenA, hlenB, Nat.min_self] at hi
      rw [zipWith_grid_getD sA.sketch sB.sketch i (by rw [hlenA]; exact hid)
        (by rw [hlenB]; exact hid)]
      have hrowA : (sA.sketch.getD i []).length = w := by
        rw [row_length_of_wf hwfA (by rw [hdA]; exact hid), hwA]
      have hrowB : (sB.sketch.getD i []).length = w := by
        rw [row_length_of_wf hwfB (by rw [hdB]; exact hid), hwB]
      have hrowU : (sU.sketch.getD i []).length = w := by
        rw [row_length_of_wf hwfU (by rw [hdU]; exact hid), hwU]
      apply row_ext
      · rw [List.length_zipWith, hrowA, hrowB, Nat.min_self, hrowU]
      · intro j hj
        have hjw : j < w := by rwa [List.length_zipWith, hrowA, hrowB, Nat.min_self] at hj
        rw [zipWith_row_getD _ _ j (by rw [hrowA]; exact hjw) (by rw [hrowB]; exact hjw)]
        have h1 : (sA.sketch.getD i []).getD j 0 = cellVal sA i j := rfl
        have h2 : (sB.sketch.getD i []).getD j 0 = cellVal sB i j := rfl
        have h3 : (sU.sketch.getD i []).getD j 0 = cellVal sU i j := rfl
        rw [h1, h2, h3, hcellA i hid j hjw, hcellB i hid j hjw, hcellU i hid j hjw,
          opsDelta_append]
  show CountMinSketch.mk sA.width sA.depth
      (sA.sketch.zipWith (fun r1 r2 => r1.zipWith (· + ·) r2) sB.sketch) = sU
  rw [hgrid, hwA, hdA, ← hwU, ← hdU]

/-! ### The processors and the service (`realtime_processor.py`,
`batch_processor.py`, `service.py`) -/

/-- `CMS_WIDTH = 1000` of `realtime_processor.py` and `service.py`. -/
def cmsWidth : Nat := 1000

/-- `CMS_DEPTH = 5` of `realtime_processor.py` and `service.py`. -/
def cmsDepth : Nat := 5

/-- `load_sketch` of `realtime_processor.py`: builds
`CountMinSketch(CMS_WIDTH, CMS_DEPTH)` and, when a state file exists
(`state = some grid`), overwrites `sketch.sketch` with the persisted grid —
with no validation of the dimensions of the grid. -/
def loadSketch (state : Option Grid) : CountMinSketch :=
  match state with
  | none => initSketch cmsWidth cmsDepth
  | some g => { initSketch cmsWidth cmsDepth with sketch := g }

/-- The sketch-loading step of `get_approximate_top_k` in `service.py`:
builds `CountMinSketch(CMS_WIDTH, CMS_DEPTH)` and overwrites `sketch.sketch`
with the persisted grid, again with no validation. -/
def serviceLoadSketch (g : Grid) : CountMinSketch :=
  { initSketch cmsWidth cmsDepth with sketch := g }

/-- One file of the simulated Kafka queue: its name, and `some event_id` when
`json.load` + the `event_id` lookup succeed, `none` when the file raises
`JSONDecodeError`/`KeyError`. -/
structure QueueFile where
  name : String
  content : Option String
deriving Repr, DecidableEq

/-- The Python test `filename.endswith(".json")`: the suffix test, computed on the
character lists. -/
def endsWithJson (name : String) : Bool :=
  ".json".data.isSuffixOf name.data

/-- The skip test shared by both processors:
`not filename.endswith(".json") or filename in processed_files`. -/
def shouldSkip (ledger : List String) (f : QueueFile) : Bool :=
  !(endsWithJson f.name) || ledger.contains f.name

/-- The event loop of `process_events` (`realtime_processor.py`): threads the
sketch, the `events_processed` counter and the `newly_processed` list through
the sorted file list. -/
def realtimeLoop (hashFn : Nat → String → Nat) (ledger : List String) :
    CountMinSketch → Nat → List String → List QueueFile → CountMinSketch × Nat × List String
  | c, n, newly, [] => (c, n, newly)
  | c, n, newly, f :: rest =>
    if shouldSkip ledger f then realtimeLoop hashFn ledger c n newly rest
    else
      match f.content with
      | some eid => realtimeLoop hashFn ledger (add hashFn c eid 1) (n + 1)
          (newly ++ [f.name]) rest
      | none => realtimeLoop hashFn ledger c n newly rest

/-- Outcome of one `process_events` run: the final sketch, the counter, and
the two persistence effects (`save_sketch` performed, filenames appended to
the processed log). -/
structure RealtimeRun where
  sketch : CountMinSketch
  eventsProcessed : Nat
  sketchSaved : Bool
  ledgerAppended : List String
deriving Repr

/-- `process_events`: runs the loop from the loaded sketch; saves the sketch
and appends the newly processed filenames only when `events_processed > 0`. -/
def realtimeRun (hashFn : Nat → String → Nat) (c0 : CountMinSketch)
    (files : List QueueFile) (ledger : List String) : RealtimeRun :=
  match realtimeLoop hashFn ledger c0 0 [] files with
  | (c, n, newly) => ⟨c, n, decide (0 < n), if 0 < n then newly else []⟩

/-- One Python statement `batch_counts[event_id] += 1` (`collections.Counter`
update), with the counter modelled as a function `String → Nat`. -/
def batchBump (counts : String → Nat) (eid : String) : String → Nat :=
  fun k => if k = eid then counts k + 1 else counts k

/-- The event loop of `process_batch` (`batch_processor.py`): threads the
`Counter` and the `newly_processed` list through the sorted file list. -/
def batchLoop (ledger : List String) :
    (String → Nat) → List String → List QueueFile → (String → Nat) × List String
  | counts, newly, [] => (counts, newly)
  | counts, newly, f :: rest =>
    if shouldSkip ledger f then batchLoop ledger counts newly rest
    else
      match f.content with
      | some eid => batchLoop ledger (batchBump counts eid) (newly ++ [f.name]) rest
      | none => batchLoop ledger counts newly rest

/-- The output filename computed by `process_batch`:
`os.path.join(HDFS_DIR, f"batch_{{batch_timestamp}}.json")`.  The doubled
braces in the Python f-string are literal braces, so the timestamp is NOT
interpolated: the name is the constant string `batch_\x7bbatch_timestamp\x7d.json`,
independent of `batch_timestamp = int(time.time())`. -/
def batchOutputFilename (batchTimestamp : Nat) : String :=
  "batch_\x7bbatch_timestamp\x7d.json"

/-- Outcome of one `process_batch` run: the exact counter, the newly consumed
filenames, the batch file written (its name), and the ledger appends. -/
structure BatchRun where
  counts : String → Nat
  newlyProcessed : List String
  writtenFile : Option String
  ledgerAppended : List String

/-- `process_batch`: runs the loop; when `newly_processed` is non-empty it
writes one batch file (named by `batchOutputFilename`) and appends the
consumed filenames to the batch ledger, otherwise it is a no-op. -/
def batchRun (batchTimestamp : Nat) (files : List QueueFile) (ledger : List String) :
    BatchRun :=
  match batchLoop ledger (fun _ => 0) [] files with
  | (counts, newly) =>
    if newly = [] then ⟨counts, newly, none, []⟩
    else ⟨counts, newly, some (batchOutputFilename batchTimestamp), newly⟩

/-- The well-formed events a run consumes: files that pass the skip test and
parse successfully, in file order. -/
def parsedEvents (ledger : List String) : List QueueFile → List String
  | [] => []
  | f :: rest =>
    if shouldSkip ledger f then parsedEvents ledger rest
    else
      match f.content with
      | some eid => eid :: parsedEvents ledger rest
      | none => parsedEvents ledger rest

/-! ### Pipeline lemmas -/

lemma estimate_init (hashFn : Nat → String → Nat) (w d : Nat) (k : String) (hd : 0 < d) :
    estimate hashFn (initSketch w d) k = some 0 := by
  obtain ⟨m, hest, _, i, hi, hval⟩ := estimate_spec hashFn (initSketch w d) k hd
  rw [hest, hval, cellVal_init]

lemma realtimeLoop_cons (hashFn : Nat → String → Nat) (ledger : List String)
    (c : CountMinSketch) (n : Nat) (newly : List String) (f : QueueFile)
    (rest : List QueueFile) :
    realtimeLoop hashFn ledger c n newly (f :: rest) =
      if shouldSkip ledger f then realtimeLoop hashFn ledger c n newly rest
      else
        match f.content with
        | some eid => realtimeLoop hashFn ledger (add hashFn c eid 1) (n + 1)
            (newly ++ [f.name]) rest
        | none => realtimeLoop hashFn ledger c n newly rest := rfl

lemma parsedEvents_cons (ledger : List String) (f : QueueFile) (rest : List QueueFile) :
    parsedEvents ledger (f :: rest) =
      if shouldSkip ledger f then parsedEvents ledger rest
      else
        match f.content with
        | some eid => eid :: parsedEvents ledger rest
        | none => parsedEvents ledger rest := rfl

lemma batchLoop_cons (ledger : List String) (counts : String → Nat) (newly : List String)
    (f : QueueFile) (rest : List QueueFile) :
    batchLoop ledger counts newly (f :: rest) =
      if shouldSkip ledger f then batchLoop ledger counts newly rest
      else
        match f.content with
        | some eid => batchLoop ledger (batchBump counts eid) (newly ++ [f.name]) rest
        | none => batchLoop ledger counts newly rest := rfl

lemma realtimeLoop_sketch (hashFn : Nat → String → Nat) (ledger : List String) :
    ∀ (files : List QueueFile) (c : CountMinSketch) (n : Nat) (newly : List String),
      (realtimeLoop hashFn ledger c n newly files).1 =
        applyOps hashFn c ((parsedEvents ledger files).map (fun e => (e, 1)))
  | [], _, _, _ => rfl
  | f :: rest, c, n, newly => by
      by_cases h : shouldSkip ledger f
      · rw [realtimeLoop_cons, parsedEvents_cons, if_pos h, if_pos h,
          realtimeLoop_sketch hashFn ledger rest c n newly]
      · cases hc : f.content with
        | some eid =>
            rw [realtimeLoop_cons, parsedEvents_cons, if_neg h, if_neg h, hc]
            show (realtimeLoop hashFn ledger (add hashFn c eid 1) (n + 1)
                (newly ++ [f.name]) rest).1 =
              applyOps hashFn c ((eid :: parsedEvents ledger rest).map (fun e => (e, 1)))
            rw [List.map_cons, realtimeLoop_sketch hashFn ledger rest]
            rfl
        | none =>
            rw [realtimeLoop_cons, parsedEvents_cons, if_neg h, if_neg h, hc]
            show (realtimeLoop hashFn ledger c n newly rest).1 =
              applyOps hashFn c ((parsedEvents ledger rest).map (fun e => (e, 1)))
            exact realtimeLoop_sketch hashFn ledger rest c n newly

lemma batchLoop_counts (ledger : List String) :
    ∀ (files : List QueueFile) (counts : String → Nat) (newly : List String) (k : String),
      (batchLoop ledger counts newly files).1 k =
        counts k + keyTotal k ((parsedEvents ledger files).map (fun e => (e, 1)))
  | [], counts, _, k => by
      show counts k = counts k + keyTotal k []
      rw [keyTotal, Nat.add_zero]
  | f :: rest, counts, newly, k => by
      by_cases h : shouldSkip ledger f
      · rw [batchLoop_cons, parsedEvents_cons, if_pos h, if_pos h,
          batchLoop_counts ledger rest counts newly k]
      · cases hc : f.content with
        | some eid =>
            rw [batchLoop_cons, parsedEvents_cons, if_neg h, if_neg h, hc]
            show (batchLoop ledger (batchBump counts eid) (newly ++ [f.name]) rest).1 k =
              counts k + keyTotal k ((eid :: parsedEvents ledger rest).map (fun e => (e, 1)))
            rw [List.map_cons, batchLoop_counts ledger rest (batchBump counts eid)
              (newly ++ [f.name]) k, keyTotal]
            unfold batchBump
            by_cases hk : k = eid
            · rw [if_pos hk, if_pos (by rw [hk])]
              omega
            · rw [if_neg hk, if_neg (fun e => hk e.symm)]
              omega
        | none =>
            rw [batchLoop_cons, parsedEvents_cons, if_neg h, if_neg h, hc]
            show (batchLoop ledger counts newly rest).1 k =
              counts k + keyTotal k ((parsedEvents ledger rest).map (fun e => (e, 1)))
            exact batchLoop_counts ledger rest counts newly k

lemma realtimeLoop_noop (hashFn : Nat → String → Nat) (ledger : List String) :
    ∀ (files : List QueueFile) (c : CountMinSketch) (n : Nat) (newly : List String),
      (∀ f ∈ files, shouldSkip ledger f = true ∨ f.content = none) →
      realtimeLoop hashFn ledger c n newly files = (c, n, newly)
  | [], _, _, _, _ => rfl
  | f :: rest, c, n, newly, hall => by
      have hrest := fun f hf => hall f (List.mem_cons_of_mem _ hf)
      have ih := realtimeLoop_noop hashFn ledger rest c n newly hrest
      rcases hall f (List.mem_cons_self _ _) with h | h
      · rw [realtimeLoop_cons, if_pos h, ih]
      · by_cases hs : shouldSkip ledger f
        · rw [realtimeLoop_cons, if_pos hs, ih]
        · rw [realtimeLoop_cons, if_neg hs, h]
          exact ih

lemma batchLoop_noop (ledger : List String) :
    ∀ (files : List QueueFile) (counts : String → Nat) (newly : List String),
      (∀ f ∈ files, shouldSkip ledger f = true ∨ f.content = none) →
      batchLoop ledger counts newly files = (counts, newly)
  | [], _, _, _ => rfl
  | f :: rest, counts, newly, hall => by
      have hrest := fun f hf => hall f (List.mem_cons_of_mem _ hf)
      have ih := batchLoop_noop ledger rest counts newly hrest
      rcases hall f (List.mem_cons_self _ _) with h | h
      · rw [batchLoop_cons, if_pos h, ih]
      · by_cases hs : shouldSkip ledger f
        · rw [batchLoop_cons, if_pos hs, ih]
        · rw [batchLoop_cons, if_neg hs, h]
          exact ih

lemma skip_of_ledgered (ledger : List String) (files : List QueueFile)
    (H : ∀ f ∈ files, endsWithJson f.name = true → f.content.isSome = true →
      f.name ∈ ledger) :
    ∀ f ∈ files, shouldSkip ledger f = true ∨ f.content = none := by
  intro f hf
  by_cases hj : endsWithJson f.name
  · cases hc : f.content with
    | none => exact Or.inr rfl
    | some eid =>
        left
        have hmem := H f hf hj (by rw [hc]; rfl)
        simp [shouldSkip, hj, hmem]
  · left
    simp [shouldSkip, Bool.eq_false_iff.mpr hj]

lemma realtimeRun_sketch (hashFn : Nat → String → Nat) (c0 : CountMinSketch)
    (files : List QueueFile) (ledger : List String) :
    (realtimeRun hashFn c0 files ledger).sketch =
      (realtimeLoop hashFn ledger c0 0 [] files).1 := by
  unfold realtimeRun
  cases realtimeLoop hashFn ledger c0 0 [] files with
  | mk c p => cases p with | mk n newly => rfl

lemma batchRun_counts_eq (batchTimestamp : Nat) (files : List QueueFile)
    (ledger : List String) :
    (batchRun batchTimestamp files ledger).counts =
      (batchLoop ledger (fun _ => 0) [] files).1 := by
  unfold batchRun
  cases batchLoop ledger (fun _ => 0) [] files with
  | mk counts newly =>
      by_cases h : newly = [] <;> simp [h]

/-! ### Claim theorems -/

/-- Claim C1 (no-undercount): for every sketch created with `width > 0` and
`depth > 0`, every finite sequence of `add(key, count)` calls with positive
counts, and every key, `estimate(key)` is at least the sum of the counts added
for that key.  Holds for every row-hash function. -/
theorem no_undercount (hashFn : Nat → String → Nat) (w d : Nat) (hw : 0 < w) (hd : 0 < d)
    (ops : List (String × Nat)) (hpos : ∀ p ∈ ops, 0 < p.2) (k : String) :
    ∃ m, estimate hashFn (applyOps hashFn (initSketch w d) ops) k = some m ∧
      keyTotal k ops ≤ m :=
  estimate_applyOps_ge hashFn (initSketch w d) ops k (wf_init w d) hw hd

/-- Witness for C1 at a concrete hash function, dimensions, add sequence and
key. -/
theorem no_undercount_witness :
    ∃ m, estimate (fun i s => i + s.length)
        (applyOps (fun i s => i + s.length) (initSketch 3 2) [("a", 2), ("b", 1), ("a", 5)])
        "a" = some m ∧
      keyTotal "a" [("a", 2), ("b", 1), ("a", 5)] ≤ m :=
  no_undercount (fun i s => i + s.length) 3 2 (by decide) (by decide)
    [("a", 2), ("b", 1), ("a", 5)] (by decide) "a"

/-- Claim C2: on a well-formed sketch with positive width and depth,
`estimate(key)` returns exactly the minimum over the rows `i < depth` of
`counters[i][h_i(key)]` (it is a lower bound of all the addressed cells and is
attained at one of them), where the per-row position `rowIndex` is the same
deterministic salted hash that `add` uses: `add` increments exactly those
cells. -/
theorem estimate_is_min_over_rows (hashFn : Nat → String → Nat) (c : CountMinSketch)
    (item : String) (hwf : WellFormed c) (hw : 0 < c.width) (hd : 0 < c.depth) :
    ∃ m, estimate hashFn c item = some m ∧
      (∀ i < c.depth, m ≤ cellVal c i (rowIndex hashFn c.width i item)) ∧
      (∃ i < c.depth, m = cellVal c i (rowIndex hashFn c.width i item)) ∧
      (∀ cnt, ∀ i < c.depth,
        cellVal (add hashFn c item cnt) i (rowIndex hashFn c.width i item) =
          cellVal c i (rowIndex hashFn c.width i item) + cnt) := by
  obtain ⟨m, h1, h2, h3⟩ := estimate_spec hashFn c item hd
  refine ⟨m, h1, h2, h3, ?_⟩
  intro cnt i hi
  rw [cellVal_add hashFn item cnt hwf hi (rowIndex_lt hashFn c.width i item hw),
    if_pos rfl]

/-- Witness for C2 at a concrete sketch. -/
theorem estimate_is_min_over_rows_witness :
    ∃ m, estimate (fun i s => i + s.length) ⟨2, 2, [[5, 7], [3, 9]]⟩ "ab" = some m ∧
      (∀ i < (2 : Nat),
        m ≤ cellVal ⟨2, 2, [[5, 7], [3, 9]]⟩ i (rowIndex (fun i s => i + s.length) 2 i "ab")) ∧
      (∃ i < (2 : Nat),
        m = cellVal ⟨2, 2, [[5, 7], [3, 9]]⟩ i (rowIndex (fun i s => i + s.length) 2 i "ab")) ∧
      (∀ cnt, ∀ i < (2 : Nat),
        cellVal (add (fun i s => i + s.length) ⟨2, 2, [[5, 7], [3, 9]]⟩ "ab" cnt) i
            (rowIndex (fun i s => i + s.length) 2 i "ab") =
          cellVal ⟨2, 2, [[5, 7], [3, 9]]⟩ i (rowIndex (fun i s => i + s.length) 2 i "ab")
            + cnt) :=
  estimate_is_min_over_rows (fun i s => i + s.length) ⟨2, 2, [[5, 7], [3, 9]]⟩ "ab"
    (by constructor <;> decide) (by decide) (by decide)

/-- Claim C3 (merge linearity): for two sketches of identical positive
dimensions built by `add` calls from disjoint event multisets `A` and `B`,
merging `B` into `A` and estimating any key gives the same answer as building
one fresh sketch from all adds of `A ++ B`. -/
theorem merge_linearity (hashFn : Nat → String → Nat) (w d : Nat) (hw : 0 < w)
    (hd : 0 < d) (A B : List (String × Nat))
    (hdisj : ∀ p ∈ A, ∀ q ∈ B, Prod.fst p ≠ Prod.fst q) (k : String) :
    estimate hashFn (mergeRun (applyOps hashFn (initSketch w d) A)
        (applyOps hashFn (initSketch w d) B)).1 k
      = estimate hashFn (applyOps hashFn (initSketch w d) (A ++ B)) k := by
  rw [mergeRun_applyOps]

/-- Witness for C3 at concrete disjoint add sequences. -/
theorem merge_linearity_witness :
    estimate (fun i s => i + s.length)
        (mergeRun (applyOps (fun i s => i + s.length) (initSketch 2 1) [("a", 1)])
          (applyOps (fun i s => i + s.length) (initSketch 2 1) [("bc", 2)])).1 "a"
      = estimate (fun i s => i + s.length)
          (applyOps (fun i s => i + s.length) (initSketch 2 1) ([("a", 1)] ++ [("bc", 2)]))
          "a" :=
  merge_linearity (fun i s => i + s.length) 2 1 (by decide) (by decide)
    [("a", 1)] [("bc", 2)] (by decide) "a"

/-- Claim C4: `merge(other)` fails (raising the dimension-mismatch
`ValueError`) exactly when `self.width != other.width` or
`self.depth != other.depth`; with equal dimensions on well-formed sketches it
never fails and the result is a well-formed grid of the same width and depth
(no truncation or padding). -/
theorem merge_dimension_check (c o : CountMinSketch) (hc : WellFormed c)
    (ho : WellFormed o) :
    ((mergeRun c o).2.isSome = true ↔ (c.width ≠ o.width ∨ c.depth ≠ o.depth)) ∧
    (c.width = o.width → c.depth = o.depth →
      (mergeRun c o).2 = none ∧ WellFormed (mergeRun c o).1 ∧
      (mergeRun c o).1.width = c.width ∧ (mergeRun c o).1.depth = c.depth) := by
  by_cases hcond : c.width ≠ o.width ∨ c.depth ≠ o.depth
  · constructor
    · rw [mergeRun, if_pos hcond]
      simp [hcond]
    · intro hweq hdeq
      rcases hcond with h | h
      · exact absurd hweq h
      · exact absurd hdeq h
  · have hweq : c.width = o.width := not_ne_iff.mp (not_or.mp hcond).1
    have hdeq : c.depth = o.depth := not_ne_iff.mp (not_or.mp hcond).2
    constructor
    · rw [mergeRun, if_neg hcond]
      simp [hcond]
    · intro _ _
      rw [mergeRun, if_neg hcond]
      refine ⟨rfl, ⟨?_, ?_⟩, rfl, rfl⟩
      · show (c.sketch.zipWith (fun r1 r2 => r1.zipWith (· + ·) r2) o.sketch).length = c.depth
        rw [List.length_zipWith, hc.1, ho.1, ← hdeq, Nat.min_self]
      · show ∀ r ∈ c.sketch.zipWith (fun r1 r2 => r1.zipWith (· + ·) r2) o.sketch,
          r.length = c.width
        exact zipWith_rows_length c.sketch o.sketch c.width hc.2
          (fun r hr => (ho.2 r hr).trans hweq.symm)

/-- Witness for C4 at concrete well-formed sketches of equal dimensions. -/
theorem merge_dimension_check_witness :
    (((mergeRun ⟨2, 1, [[1, 2]]⟩ ⟨2, 1, [[3, 4]]⟩).2.isSome = true ↔
      ((2 : Nat) ≠ 2 ∨ (1 : Nat) ≠ 1)) ∧
    ((2 : Nat) = 2 → (1 : Nat) = 1 →
      (mergeRun ⟨2, 1, [[1, 2]]⟩ ⟨2, 1, [[3, 4]]⟩).2 = none ∧
      WellFormed (mergeRun ⟨2, 1, [[1, 2]]⟩ ⟨2, 1, [[3, 4]]⟩).1 ∧
      (mergeRun ⟨2, 1, [[1, 2]]⟩ ⟨2, 1, [[3, 4]]⟩).1.width = 2 ∧
      (mergeRun ⟨2, 1, [[1, 2]]⟩ ⟨2, 1, [[3, 4]]⟩).1.depth = 1)) :=
  merge_dimension_check ⟨2, 1, [[1, 2]]⟩ ⟨2, 1, [[3, 4]]⟩
    (by constructor <;> decide) (by constructor <;> decide)

/-- Claim C9 (merge failure atomicity): whenever `merge` fails on mismatched
dimensions, the receiving sketch is exactly as before the call — the
`ValueError` is raised before any cell is mutated. -/
theorem merge_failure_atomic (c o : CountMinSketch)
    (h : (mergeRun c o).2.isSome = true) : (mergeRun c o).1 = c := by
  by_cases hcond : c.width ≠ o.width ∨ c.depth ≠ o.depth
  · rw [mergeRun, if_pos hcond]
  · rw [mergeRun, if_neg hcond] at h
    simp at h

/-- Witness for C9 at concrete sketches of mismatched depth. -/
theorem merge_failure_atomic_witness :
    (mergeRun ⟨1, 2, [[1], [2]]⟩ ⟨1, 3, [[1], [2], [3]]⟩).1 = ⟨1, 2, [[1], [2]]⟩ :=
  merge_failure_atomic ⟨1, 2, [[1], [2]]⟩ ⟨1, 3, [[1], [2], [3]]⟩ (by decide)

/-- Claim C10 (row-sum invariant): on a sketch created fresh with positive
width and depth and mutated only by `add` calls, every row `i < depth` sums to
the total of all added counts (so all rows have equal sums), and on the fresh
sketch with no adds `estimate` returns `0` for every key. -/
theorem row_sum_invariant (hashFn : Nat → String → Nat) (w d : Nat) (hw : 0 < w)
    (hd : 0 < d) (ops : List (String × Nat)) :
    (∀ i < d, rowSum (applyOps hashFn (initSketch w d) ops) i = totalCount ops) ∧
    (∀ k, estimate hashFn (initSketch w d) k = some 0) := by
  constructor
  · intro i hi
    rw [rowSum_applyOps hashFn ops (initSketch w d) (wf_init w d) hw hi, rowSum_init,
      Nat.zero_add]
  · intro k
    exact estimate_init hashFn w d k hd

/-- Witness for C10 at concrete dimensions and add sequence. -/
theorem row_sum_invariant_witness :
    (∀ i < (2 : Nat),
      rowSum (applyOps (fun i s => i + s.length) (initSketch 3 2) [("a", 2), ("b", 4)]) i =
        totalCount [("a", 2), ("b", 4)]) ∧
    (∀ k, estimate (fun i s => i + s.length) (initSketch 3 2) k = some 0) :=
  row_sum_invariant (fun i s => i + s.length) 3 2 (by decide) (by decide)
    [("a", 2), ("b", 4)]

/-- Claim C5, counterexample: loading a persisted 1-by-1 grid while the
requested dimensions are `width = 1000`, `depth = 5` does not fail — there is
no dimension check anywhere in the load path — and silently produces a sketch
whose grid row/column counts disagree with its `depth`/`width` fields, which
the claim says can never happen. -/
theorem load_mismatch_accepted :
    (loadSketch (some [[0]])).sketch = [[0]] ∧
    (loadSketch (some [[0]])).width = 1000 ∧
    (loadSketch (some [[0]])).depth = 5 ∧
    (loadSketch (some [[0]])).sketch.length ≠ (loadSketch (some [[0]])).depth ∧
    ((loadSketch (some [[0]])).sketch.getD 0 []).length ≠ (loadSketch (some [[0]])).width := by
  refine ⟨rfl, rfl, rfl, by decide, by decide⟩

/-- Claim C5 as amended: loading persisted sketch state performs no dimension
validation at all — both `load_sketch` (realtime processor) and the loading
step of `get_approximate_top_k` (service) return a sketch whose grid is
exactly the persisted grid, whatever its dimensions, and never fail. -/
theorem load_no_dimension_check (g : Grid) :
    loadSketch (some g) = ⟨cmsWidth, cmsDepth, g⟩ ∧
    serviceLoadSketch g = ⟨cmsWidth, cmsDepth, g⟩ :=
  ⟨rfl, rfl⟩

/-- Claim C6, failing behaviour: the batch output filename is the constant
string `batch_\x7bbatch_timestamp\x7d.json` for every timestamp (the doubled
braces in the Python f-string are literal, so the timestamp is never
interpolated), hence two runs at different timestamps write the same file and
the second run overwrites the first. -/
theorem batch_filename_constant :
    batchOutputFilename 1 = batchOutputFilename 2 ∧
    (batchRun 1 [⟨"a.json", some "X"⟩] []).writtenFile =
      some "batch_\x7bbatch_timestamp\x7d.json" ∧
    (batchRun 2 [⟨"b.json", some "X"⟩] ["a.json"]).writtenFile =
      some "batch_\x7bbatch_timestamp\x7d.json" ∧
    (batchRun 1 [⟨"a.json", some "X"⟩] []).writtenFile =
      (batchRun 2 [⟨"b.json", some "X"⟩] ["a.json"]).writtenFile := by
  refine ⟨rfl, ?_, ?_, ?_⟩ <;> decide

/-- Claim C7 (cross-path dominance): for the same queue files and the same
ledger fed to both pipelines, and for every key, the estimate the approximate
path computes (realtime processor folding the events into the sketch, service
estimating from it) is at least the exact count the batch path computes for
that key. -/
theorem cross_path_dominance (hashFn : Nat → String → Nat) (files : List QueueFile)
    (ledger : List String) (ts : Nat) (k : String) :
    ∃ m, estimate hashFn
        (realtimeRun hashFn (initSketch cmsWidth cmsDepth) files ledger).sketch k
        = some m ∧
      (batchRun ts files ledger).counts k ≤ m := by
  rw [realtimeRun_sketch hashFn (initSketch cmsWidth cmsDepth) files ledger,
    realtimeLoop_sketch hashFn ledger files (initSketch cmsWidth cmsDepth) 0 []]
  have hct : (batchRun ts files ledger).counts k =
      keyTotal k ((parsedEvents ledger files).map (fun e => (e, 1))) := by
    rw [batchRun_counts_eq, batchLoop_counts ledger files (fun _ => 0) [] k, Nat.zero_add]
  rw [hct]
  exact estimate_applyOps_ge hashFn (initSketch cmsWidth cmsDepth) _ k
    (wf_init cmsWidth cmsDepth) (by decide) (by decide)

/-- Claim C8 (idempotent replay): when every available well-formed `.json`
event file is already in the ledger, re-running the stream updater saves no
sketch state and appends nothing to its ledger (and leaves the in-memory
sketch untouched), and re-running the batch job writes no batch file and
appends nothing to its ledger. -/
theorem idempotent_replay (hashFn : Nat → String → Nat) (c0 : CountMinSketch)
    (files : List QueueFile) (ledger : List String) (ts : Nat)
    (H : ∀ f ∈ files, endsWithJson f.name = true → f.content.isSome = true →
      f.name ∈ ledger) :
    (realtimeRun hashFn c0 files ledger).sketchSaved = false ∧
    (realtimeRun hashFn c0 files ledger).ledgerAppended = [] ∧
    (realtimeRun hashFn c0 files ledger).sketch = c0 ∧
    (batchRun ts files ledger).writtenFile = none ∧
    (batchRun ts files ledger).ledgerAppended = [] := by
  have hskip := skip_of_ledgered ledger files H
  have h1 := realtimeLoop_noop hashFn ledger files c0 0 [] hskip
  have h2 := batchLoop_noop ledger files (fun _ => 0) [] hskip
  unfold realtimeRun batchRun
  rw [h1, h2]
  exact ⟨rfl, rfl, rfl, rfl, rfl⟩

/-- Witness for C8: a ledgered `.json` event, a malformed unledgered `.json`
file and an unledgered non-`.json` file — both runs are no-ops. -/
theorem idempotent_replay_witness :
    (realtimeRun (fun i s => i + s.length) (initSketch 3 2)
      [⟨"a.json", some "X"⟩, ⟨"b.json", none⟩, ⟨"c.txt", some "Y"⟩]
      ["a.json"]).sketchSaved = false ∧
    (realtimeRun (fun i s => i + s.length) (initSketch 3 2)
      [⟨"a.json", some "X"⟩, ⟨"b.json", none⟩, ⟨"c.txt", some "Y"⟩]
      ["a.json"]).ledgerAppended = [] ∧
    (realtimeRun (fun i s => i + s.length) (initSketch 3 2)
      [⟨"a.json", some "X"⟩, ⟨"b.json", none⟩, ⟨"c.txt", some "Y"⟩]
      ["a.json"]).sketch = initSketch 3 2 ∧
    (batchRun 7 [⟨"a.json", some "X"⟩, ⟨"b.json", none⟩, ⟨"c.txt", some "Y"⟩]
      ["a.json"]).writtenFile = none ∧
    (batchRun 7 [⟨"a.json", some "X"⟩, ⟨"b.json", none⟩, ⟨"c.txt", some "Y"⟩]
      ["a.json"]).ledgerAppended = [] :=
  idempotent_replay (fun i s => i + s.length) (initSketch 3 2)
    [⟨"a.json", some "X"⟩, ⟨"b.json", none⟩, ⟨"c.txt", some "Y"⟩]
    ["a.json"] 7 (by decide)

end Leaderboard
